import Mathlib

/-!
Shallow embedding of the bitpay/bloom-filter library (lib/filter.js) and of
its MurmurHash3 hasher, with proofs of the specified properties.

Bytes are modelled as `Nat` values (kept below 256 by the operations that
produce them); byte buffers are `List Nat`.  All 32-bit arithmetic is done
in `Nat` with explicit reduction modulo `2 ^ 32`.
-/

/-- Modelled from the spec: 32-bit left rotation used by the MurmurHash3
algorithm (section 4.1 of the spec); the file lib/murmurhash3.js is not
present under src/, so the hasher is reconstructed from the spec's
bit-exact description.  The argument `x` is a 32-bit word (`x < 2 ^ 32`)
and `r` a rotation amount in `[1, 31]`. -/
def rotl32 (x r : Nat) : Nat :=
  ((x <<< r) ||| (x >>> (32 - r))) % 2 ^ 32

/-- Modelled from the spec: the per-4-byte-block mixing step of
MurmurHash3 (c1 = 0xcc9e2d51, c2 = 0x1b873593, rotations 15 and 13,
`h = h * 5 + 0xe6546b64`), all modulo `2 ^ 32`. -/
def murmurMix (h k : Nat) : Nat :=
  let k1 := (k * 0xcc9e2d51) % 2 ^ 32
  let k2 := rotl32 k1 15
  let k3 := (k2 * 0x1b873593) % 2 ^ 32
  let h1 := h ^^^ k3
  let h2 := rotl32 h1 13
  (h2 * 5 + 0xe6546b64) % 2 ^ 32

/-- Modelled from the spec: processes the input in 4-byte little-endian
chunks, returning the running hash together with the remaining 0-3 tail
bytes. -/
def murmurBlocks (h : Nat) : List Nat → Nat × List Nat
  | b0 :: b1 :: b2 :: b3 :: rest =>
      murmurBlocks (murmurMix h (b0 + b1 * 2 ^ 8 + b2 * 2 ^ 16 + b3 * 2 ^ 24)) rest
  | tail => (h, tail)

/-- Modelled from the spec: mixing of the little-endian partial word built
from the 1-3 tail bytes — c1 / rotate 15 / c2 only, XORed into the hash
without the `* 5 + const` step. -/
def murmurTailMix (h k : Nat) : Nat :=
  let k1 := (k * 0xcc9e2d51) % 2 ^ 32
  let k2 := rotl32 k1 15
  let k3 := (k2 * 0x1b873593) % 2 ^ 32
  h ^^^ k3

/-- Modelled from the spec: the 1-3 remaining tail bytes are assembled as a
little-endian partial word and mixed by `murmurTailMix`; an empty tail
leaves the hash unchanged.  `murmurBlocks` only ever produces tails of
0-3 bytes, so the catch-all final case is unreachable. -/
def murmurTail (h : Nat) : List Nat → Nat
  | [] => h
  | [b0] => murmurTailMix h b0
  | [b0, b1] => murmurTailMix h (b0 + b1 * 2 ^ 8)
  | [b0, b1, b2] => murmurTailMix h (b0 + b1 * 2 ^ 8 + b2 * 2 ^ 16)
  | _ => h

/-- Modelled from the spec: MurmurHash3, 32-bit variant —
`hash(seed, data) -> uint32`, deterministic, defined for every byte buffer
including the empty one.  The finalization avalanche XORs in the input
length and applies the standard shift/multiply mixing, all modulo
`2 ^ 32`.  (lib/murmurhash3.js is absent from src/.  The spec's prose
writes the last avalanche step as `hash ^= hash>>15`, but the spec also
requires the documented reference vectors to reproduce exactly, and the
repository's own test file pins those vectors; they force the canonical
final shift of 16, used here and checked in `murmur_matches_test_vectors`
below.) -/
def MurmurHash3 (seed : Nat) (data : List Nat) : Nat :=
  let p := murmurBlocks (seed % 2 ^ 32) data
  let h0 := murmurTail p.1 p.2
  let h1 := h0 ^^^ (data.length % 2 ^ 32)
  let h2 := h1 ^^^ (h1 >>> 16)
  let h3 := (h2 * 0x85ebca6b) % 2 ^ 32
  let h4 := h3 ^^^ (h3 >>> 13)
  let h5 := (h4 * 0xc2b2ae35) % 2 ^ 32
  h5 ^^^ (h5 >>> 16)

namespace Bloom

/-- The Filter data structure of lib/filter.js: a byte array `vData`
(conceptually a bit array of length `8 * vData.length`), a hash-function
count, a tweak and the update flags.  (Named inside the `Bloom` namespace
because Mathlib already declares a root-level `Filter`.) -/
@[ext]
structure Filter where
  vData : List Nat
  nHashFuncs : Nat
  nTweak : Nat
  nFlags : Nat
deriving DecidableEq, Repr

/-- The `Filter(arg)` constructor of lib/filter.js applied to an object that
always carries a (possibly empty, hence truthy) `vData` array, as every
internal caller does: it throws a TypeError when `arg.nHashFuncs` is falsy
(0 — or NaN, handled separately in `Filter.create`), and defaults `nTweak`
and `nFlags` to 0. -/
def Filter.ofObject (vData : List Nat) (nHashFuncs nTweak nFlags : Nat) :
    Except String Filter :=
  if nHashFuncs = 0 then
    Except.error "Data object should include number of hash functions \"nHashFuncs\""
  else
    Except.ok ⟨vData, nHashFuncs, nTweak, nFlags⟩

/-- `Filter.prototype.hash`: `MurmurHash3((nHashNum * 0xFBA4C795 + nTweak)
& 0xFFFFFFFF, data) % (vData.length * 8)`.  The JS `& 0xFFFFFFFF` is the
reduction modulo `2 ^ 32` (the hasher only depends on the seed modulo
`2 ^ 32`).  Callers only use this with `vData.length > 0`; the JS NaN
behaviour of `% 0` is modelled at the call site in `Filter.insertStep`. -/
def Filter.hash (f : Filter) (nHashNum : Nat) (data : List Nat) : Nat :=
  MurmurHash3 ((nHashNum * 0xFBA4C795 + f.nTweak) % 2 ^ 32) data % (f.vData.length * 8)

/-- One iteration of the `insert` loop:
`this.vData[index >> 3] |= 1 << (7 & index)`.  When `vData` is empty the JS
code computes `index = h % 0 = NaN`, `NaN >> 3 = 0`, `7 & NaN = 0`, and
`vData[0] = undefined | 1 = 1`, so the empty array becomes `[1]`.  When
`vData` is non-empty, `index < 8 * vData.length`, so the write stays in
bounds. -/
def Filter.insertStep (f : Filter) (data : List Nat) (i : Nat) : Filter :=
  if f.vData.length = 0 then
    { f with vData := [1] }
  else
    let index := f.hash i data
    { f with vData :=
        f.vData.set (index >>> 3) ((f.vData.getD (index >>> 3) 0) ||| (1 <<< (7 &&& index))) }

/-- `Filter.prototype.insert`: for `i` in `[0, nHashFuncs)`, set bit
`hash(i, data)`; each iteration reads the current `this.vData` (which the
first iteration may have changed when the filter started empty). -/
def Filter.insert (f : Filter) (data : List Nat) : Filter :=
  (List.range f.nHashFuncs).foldl (fun g i => g.insertStep data i) f

/-- `Filter.prototype.contains`: false on an empty bit array, else true iff
every one of the `nHashFuncs` computed bit positions is set. -/
def Filter.contains (f : Filter) (data : List Nat) : Bool :=
  if f.vData.length = 0 then false
  else (List.range f.nHashFuncs).all fun i =>
    let index := f.hash i data
    (f.vData.getD (index >>> 3) 0) &&& (1 <<< (7 &&& index)) != 0

/-- `Filter.prototype.clear`: `this.vData = []`. -/
def Filter.clear (f : Filter) : Filter :=
  { f with vData := [] }

/-- `Filter.prototype.toObject`: the four fields, in source order. -/
def Filter.toObject (f : Filter) : List Nat × Nat × Nat × Nat :=
  (f.vData, f.nHashFuncs, f.nTweak, f.nFlags)

/-- Modelled from the spec: `JSON.stringify` applied to the plain object
returned by `toObject` (an external runtime facility, rendered here as a
concrete string of the four fields). -/
def jsonStringify (o : List Nat × Nat × Nat × Nat) : String :=
  "\x7b\"vData\":" ++ toString o.1 ++ ",\"nHashFuncs\":" ++ toString o.2.1 ++
    ",\"nTweak\":" ++ toString o.2.2.1 ++ ",\"nFlags\":" ++ toString o.2.2.2 ++ "\x7d"

/-- `Filter.prototype.toJSON`: the body evaluates
`JSON.stringify(this.toObject())` and discards it — there is no `return`
statement, so the function's value is `undefined` (modelled as `none`). -/
def Filter.toJSON (f : Filter) : Option String :=
  (fun _s => none) (jsonStringify f.toObject)

/-- Modelled from the spec: `BufferWriter.writeUInt8` of the external
encoding collaborator — emits one byte; a value outside `[0, 255]` cannot
be written as a single byte (the runtime raises a range error), modelled
as `none`. -/
def writeUInt8 (n : Nat) : Option (List Nat) :=
  if n < 256 then some [n] else none

/-- Modelled from the spec: `BufferWriter.writeUInt32LE` — four bytes,
little-endian; fails for values outside `[0, 2^32)`. -/
def writeUInt32LE (n : Nat) : Option (List Nat) :=
  if n < 2 ^ 32 then
    some [n % 256, n / 2 ^ 8 % 256, n / 2 ^ 16 % 256, n / 2 ^ 24 % 256]
  else none

/-- The byte-writing loop of `toBufferWriter`:
`for i in [0, vData.length) { bw.writeUInt8(vData[i]) }`. -/
def writeBytes : List Nat → Option (List Nat)
  | [] => some []
  | b :: rest => do
      let hd ← writeUInt8 b
      let tl ← writeBytes rest
      return hd ++ tl

/-- `Filter.prototype.toBufferWriter` / `toBuffer`: `[1-byte
vData.length][vData bytes][4-byte LE nHashFuncs][4-byte LE nTweak][1-byte
nFlags]`. -/
def Filter.toBuffer (f : Filter) : Option (List Nat) := do
  let l0 ← writeUInt8 f.vData.length
  let lb ← writeBytes f.vData
  let hb ← writeUInt32LE f.nHashFuncs
  let tb ← writeUInt32LE f.nTweak
  let fb ← writeUInt8 f.nFlags
  return l0 ++ lb ++ hb ++ tb ++ fb

/-- Modelled from the spec: `BufferReader.readUInt8` — consumes one byte;
fails (`MalformedData`) when the buffer is exhausted. -/
def readUInt8 : List Nat → Option (Nat × List Nat)
  | [] => none
  | b :: rest => some (b, rest)

/-- Modelled from the spec: `BufferReader.readUInt32LE` — consumes four
bytes, little-endian. -/
def readUInt32LE (l : List Nat) : Option (Nat × List Nat) := do
  let (b0, l) ← readUInt8 l
  let (b1, l) ← readUInt8 l
  let (b2, l) ← readUInt8 l
  let (b3, l) ← readUInt8 l
  return (b0 + b1 * 2 ^ 8 + b2 * 2 ^ 16 + b3 * 2 ^ 24, l)

/-- The byte-reading loop of `_transformBufferReader`:
`for i in [0, length) { vData.push(br.readUInt8()) }`. -/
def readBytes : Nat → List Nat → Option (List Nat × List Nat)
  | 0, l => some ([], l)
  | n + 1, l => do
      let (b, l) ← readUInt8 l
      let (bs, l) ← readBytes n l
      return (b :: bs, l)

/-- `Filter._transformBufferReader`: reads the 1-byte length, that many
data bytes, the two 4-byte little-endian words and the flags byte,
returning `(vData, nHashFuncs, nTweak, nFlags)`. -/
def Filter.transformBufferReader (buf : List Nat) :
    Option (List Nat × Nat × Nat × Nat) := do
  let (length, r) ← readUInt8 buf
  let (vData, r) ← readBytes length r
  let (nHashFuncs, r) ← readUInt32LE r
  let (nTweak, r) ← readUInt32LE r
  let (nFlags, _r) ← readUInt8 r
  return (vData, nHashFuncs, nTweak, nFlags)

/-- `Filter.fromBuffer`: decode the wire bytes with
`_transformBufferReader`, then run the `Filter` constructor on the decoded
object. -/
def Filter.fromBuffer (buf : List Nat) : Except String Filter :=
  match Filter.transformBufferReader buf with
  | none => Except.error "MalformedData"
  | some (vData, nHashFuncs, nTweak, nFlags) =>
      Filter.ofObject vData nHashFuncs nTweak nFlags

/-- `Filter.create(elements, falsePositiveRate, nTweak, nFlags)`.  The JS
floating-point values `Math.log(falsePositiveRate)`, `Filter.LN2SQUARED`
and `Filter.LN2` are transcendental, so they enter the model as explicit
rational parameters `logFp`, `ln2sq`, `ln2` (theorems constrain them to
tight intervals around the true constants).  Faithful to the source:
`size = -1.0 / LN2SQUARED * elements * Math.log(fp)`;
`filterSize = Math.floor(size / 8)` — a BYTE count; the clamp compares it
with `max = MAX_BLOOM_FILTER_SIZE * 8 = 288000` (a BIT bound, the porting
slip examined in the C2 theorem); `vData` is that many zero bytes;
`nHashFuncs = Math.floor(vData.length * 8 / elements * LN2)` clamped to
`[MIN_HASH_FUNCS, MAX_HASH_FUNCS] = [1, 50]`.  When `elements = 0` the JS
code computes `0 * 8 / 0 = NaN` (when `vData` is empty; `Infinity`,
clamped to 50, otherwise — unreachable from this function), `NaN` fails
both clamp comparisons and is falsy, so the constructor throws. -/
def Filter.create (elements logFp ln2sq ln2 : ℚ) (nTweak nFlags : Nat) :
    Except String Filter :=
  let size : ℚ := -1 / ln2sq * elements * logFp
  let filterSizeRaw : Int := ⌊size / 8⌋
  let maxSize : Int := 36000 * 8
  let filterSize : Int := if filterSizeRaw > maxSize then maxSize else filterSizeRaw
  let vData : List Nat := List.replicate filterSize.toNat 0
  if elements = 0 then
    if vData.length = 0 then
      Except.error "Data object should include number of hash functions \"nHashFuncs\""
    else
      Except.ok ⟨vData, 50, nTweak, nFlags⟩
  else
    let nhRaw : Int := ⌊(vData.length * 8 : ℚ) / elements * ln2⌋
    let nh : Int := if nhRaw > 50 then 50 else if nhRaw < 1 then 1 else nhRaw
    Filter.ofObject vData nh.toNat nTweak nFlags

/-- One output of the transaction collaborator, reduced to the accessor
contract `isRelevantAndUpdate` consumes: the script-classification
predicates and the extractable public-key hash (`none` models a `null`
return from `getPublicKeyHash`). -/
structure TxOutput where
  isPublicKeyHashOut : Bool
  publicKeyHash : Option (List Nat)
  isPublicKeyOut : Bool
  isMultiSigOut : Bool
deriving DecidableEq, Repr

/-- One input of the transaction collaborator: the referenced previous
transaction id and the unlocking script's chunks; a chunk's `buf` may be
absent (`none`, e.g. a bare opcode). -/
structure TxInput where
  prevTxId : List Nat
  chunks : List (Option (List Nat))
deriving DecidableEq, Repr

/-- The transaction collaborator: `txHash` is the buffer returned by
`transaction._getHash()` (bound to `reversed` in the source), plus the
ordered outputs and inputs. -/
structure Transaction where
  txHash : List Nat
  outputs : List TxOutput
  inputs : List TxInput
deriving DecidableEq, Repr

/-- The output-phase loop body of `isRelevantAndUpdate`: on a
pay-to-public-key-hash script whose extracted hash is contained, set
`found` and, depending on `nFlags & BLOOM_UPDATE_MASK`, insert the
transaction hash (`BLOOM_UPDATE_ALL`, or `BLOOM_UPDATE_P2PUBKEY_ONLY`
when the script is also pay-to-public-key or multisig). -/
def outputStep (hashv : List Nat) : Bool × Filter → TxOutput → Bool × Filter :=
  fun st o =>
    if o.isPublicKeyHashOut then
      match o.publicKeyHash with
      | some scriptPublicKey =>
          if st.2.contains scriptPublicKey then
            let f' :=
              if st.2.nFlags &&& 3 = 1 then st.2.insert hashv
              else if st.2.nFlags &&& 3 = 2 then
                if o.isPublicKeyOut || o.isMultiSigOut then st.2.insert hashv else st.2
              else st.2
            (true, f')
          else st
      | none => st
    else st

/-- The chunk-scanning loop of the input phase, transcribed with its index
bug: `for (s = 0; s < chunks.length; s++) { var buffer = chunks[i].buf;
... }` reads `chunks[i]` — `i` being the INPUT loop index — on every
iteration, never `chunks[s]`.  The first argument of the recursion is the
remaining iteration count (`chunks.length` at the call site).  When
`chunks[i]` does not exist the JS code throws a TypeError reading `.buf`
of `undefined`, modelled as `none`. -/
def scanChunks (f : Filter) (chunks : List (Option (List Nat))) (i : Nat) :
    Nat → Option Bool
  | 0 => some false
  | s + 1 =>
      match chunks.get? i with
      | none => none
      | some none => scanChunks f chunks i s
      | some (some buffer) =>
          if buffer.length ≠ 0 && f.contains buffer then some true
          else scanChunks f chunks i s

/-- The input-phase loop of `isRelevantAndUpdate`: for each input (index
`i`), match if the filter contains the referenced previous transaction id
in either byte ordering, else scan the unlocking-script chunks
(`scanChunks`, with the source's `chunks[i]` indexing).  No insertion
happens in this phase. -/
def inputsLoop (f : Filter) : List TxInput → Nat → Option (Bool × Filter)
  | [], _ => some (false, f)
  | input :: rest, i =>
      let reversedTxPrevId := input.prevTxId.reverse
      if f.contains input.prevTxId || f.contains reversedTxPrevId then
        some (true, f)
      else
        match scanChunks f input.chunks i input.chunks.length with
        | none => none
        | some true => some (true, f)
        | some false => inputsLoop f rest (i + 1)

/-- `Filter.prototype.isRelevantAndUpdate`: empty-filter guard, then the
transaction-hash check (both byte orderings), the output phase (which may
insert), and — only when nothing was found — the input phase.  The result
pairs the returned boolean with the (possibly mutated) filter; `none`
models the JS TypeError thrown by the chunk-index bug. -/
def Filter.isRelevantAndUpdate (f : Filter) (transaction : Transaction) :
    Option (Bool × Filter) :=
  if f.vData.length = 0 then some (false, f)
  else
    let reversed := transaction.txHash
    let hashv := reversed.reverse
    let found0 := f.contains hashv || f.contains reversed
    let st := transaction.outputs.foldl (outputStep hashv) (found0, f)
    if st.1 then some (true, st.2)
    else inputsLoop st.2 transaction.inputs 0

/-- Proof-side helper: bit `j` of the flat bit array carried by the byte
list `l`, i.e. bit `j % 8` of byte `j / 8`. -/
def bitSetB (l : List Nat) (j : Nat) : Bool :=
  (l.getD (j / 8) 0).testBit (j % 8)

/-- Proof-side helper: the four little-endian bytes of a 32-bit value, as
emitted by `writeUInt32LE`. -/
def uint32Bytes (n : Nat) : List Nat :=
  [n % 256, n / 2 ^ 8 % 256, n / 2 ^ 16 % 256, n / 2 ^ 24 % 256]

end Bloom

namespace Bloom

/-- Bit-twiddling bridge: `x >>> 3` is division by 8. -/
theorem shiftRight_three (x : Nat) : x >>> 3 = x / 8 := by
  rw [Nat.shiftRight_eq_div_pow]

/-- Bit-twiddling bridge: `7 &&& x` is `x % 8`. -/
theorem seven_and (x : Nat) : 7 &&& x = x % 8 := by
  rw [Nat.and_comm]
  exact Nat.and_pow_two_sub_one_eq_mod x 3

/-- Bit-twiddling bridge: the source's bit test `(b &&& (1 <<< k)) != 0`
is `Nat.testBit b k`. -/
theorem and_shift_ne_eq_testBit (b k : Nat) : (b &&& 1 <<< k != 0) = b.testBit k := by
  rw [Nat.one_shiftLeft, Nat.and_two_pow]
  rcases h : b.testBit k <;> simp [h, (Nat.two_pow_pos k).ne']

/-- The bit test appearing in `Filter.contains` (and implicitly in
`Filter.insertStep`) is `bitSetB`. -/
theorem byteTest_eq_bitSetB (l : List Nat) (j : Nat) :
    ((l.getD (j >>> 3) 0) &&& (1 <<< (7 &&& j)) != 0) = bitSetB l j := by
  rw [shiftRight_three, seven_and, and_shift_ne_eq_testBit]
  rfl

/-- `Filter.hash` reads only `nTweak` and `vData.length`. -/
theorem hash_congr (f g : Filter) (i : Nat) (x : List Nat)
    (ht : g.nTweak = f.nTweak) (hl : g.vData.length = f.vData.length) :
    g.hash i x = f.hash i x := by
  unfold Filter.hash
  rw [ht, hl]

/-- On a non-empty filter, every computed bit index is within the bit
array. -/
theorem hash_lt (f : Filter) (i : Nat) (x : List Nat) (h : f.vData.length ≠ 0) :
    f.hash i x < f.vData.length * 8 :=
  Nat.mod_lt _ (Nat.mul_pos (Nat.pos_of_ne_zero h) (by norm_num))

/-- On a non-empty filter, every computed byte index is within `vData`. -/
theorem hash_div_lt (f : Filter) (i : Nat) (x : List Nat) (h : f.vData.length ≠ 0) :
    f.hash i x / 8 < f.vData.length :=
  (Nat.div_lt_iff_lt_mul (by norm_num)).mpr (hash_lt f i x h)

/-- `insertStep` on a non-empty filter: the byte at `hash/8` gets the bit
`hash % 8` ORed in. -/
theorem insertStep_vData (f : Filter) (x : List Nat) (i : Nat) (h : f.vData.length ≠ 0) :
    (f.insertStep x i).vData =
      f.vData.set (f.hash i x / 8)
        ((f.vData.getD (f.hash i x / 8) 0) ||| 2 ^ (f.hash i x % 8)) := by
  simp [Filter.insertStep, h, shiftRight_three, seven_and, Nat.one_shiftLeft]

/-- `insertStep` never touches `nHashFuncs`, `nTweak` or `nFlags`. -/
theorem insertStep_fields (f : Filter) (x : List Nat) (i : Nat) :
    (f.insertStep x i).nHashFuncs = f.nHashFuncs ∧
    (f.insertStep x i).nTweak = f.nTweak ∧
    (f.insertStep x i).nFlags = f.nFlags := by
  unfold Filter.insertStep
  split <;> exact ⟨rfl, rfl, rfl⟩

/-- `insertStep` on a non-empty filter preserves the byte count. -/
theorem insertStep_length (f : Filter) (x : List Nat) (i : Nat) (h : f.vData.length ≠ 0) :
    (f.insertStep x i).vData.length = f.vData.length := by
  rw [insertStep_vData f x i h, List.length_set]

/-- Setting a bit sets it. -/
theorem bitSetB_set_self (l : List Nat) (j : Nat) (h : j / 8 < l.length) :
    bitSetB (l.set (j / 8) ((l.getD (j / 8) 0) ||| 2 ^ (j % 8))) j = true := by
  unfold bitSetB
  simp only [List.getD_eq_getElem?_getD]
  rw [List.getElem?_set_self h]
  simp [Nat.testBit_or]

/-- Setting a bit never clears another. -/
theorem bitSetB_set_mono (l : List Nat) (j j' : Nat)
    (hb : bitSetB l j = true) :
    bitSetB (l.set (j' / 8) ((l.getD (j' / 8) 0) ||| 2 ^ (j' % 8))) j = true := by
  unfold bitSetB at hb ⊢
  simp only [List.getD_eq_getElem?_getD] at hb ⊢
  rcases eq_or_ne (j' / 8) (j / 8) with he | hne
  · by_cases hl : j / 8 < l.length
    · rw [he, List.getElem?_set_self hl]
      simp only [Option.getD_some]
      rw [Nat.testBit_or]
      simp [hb]
    · rw [List.set_eq_of_length_le (by omega)]
      exact hb
  · rwa [List.getElem?_set_ne hne]

/-- Setting an already-set bit leaves the byte array unchanged. -/
theorem set_or_self (l : List Nat) (j : Nat) (hb : bitSetB l j = true) :
    l.set (j / 8) ((l.getD (j / 8) 0) ||| 2 ^ (j % 8)) = l := by
  by_cases hl : j / 8 < l.length
  · have hval : (l.getD (j / 8) 0) ||| 2 ^ (j % 8) = l.getD (j / 8) 0 := by
      apply Nat.eq_of_testBit_eq
      intro k
      rw [Nat.testBit_or, Nat.testBit_two_pow]
      rcases eq_or_ne (j % 8) k with hk | hk
      · unfold bitSetB at hb
        simp only [List.getD_eq_getElem?_getD] at hb ⊢
        rw [← hk]
        simp [hb]
      · simp [hk]
    rw [hval]
    apply List.ext_getElem?
    intro n
    rcases eq_or_ne (j / 8) n with rfl | hne
    · rw [List.getElem?_set_self hl, List.getD_eq_getElem?_getD,
        List.getElem?_eq_getElem hl]
      rfl
    · rw [List.getElem?_set_ne hne]
  · rw [List.set_eq_of_length_le (by omega)]

/-- The modelled MurmurHash3 reproduces, bit for bit, the reference
vectors pinned by the repository's test suite (src/test/index.js, taken
from the upstream consensus implementation): seeds 0x00000000, 0xFBA4C795
and 0xFFFFFFFF on the empty buffer, and buffers of lengths 1 through 9
covering every tail-byte boundary. -/
theorem murmur_matches_test_vectors :
    MurmurHash3 0 [] = 0x00000000 ∧
    MurmurHash3 0xFBA4C795 [] = 0x6a396f08 ∧
    MurmurHash3 0xffffffff [] = 0x81f16f39 ∧
    MurmurHash3 0 [0x00] = 0x514e28b7 ∧
    MurmurHash3 0xFBA4C795 [0x00] = 0xea3f0b17 ∧
    MurmurHash3 0 [0xff] = 0xfd6cf10d ∧
    MurmurHash3 0 [0x00, 0x11] = 0x16c6b7ab ∧
    MurmurHash3 0 [0x00, 0x11, 0x22] = 0x8eb51c3d ∧
    MurmurHash3 0 [0x00, 0x11, 0x22, 0x33] = 0xb4471bf8 ∧
    MurmurHash3 0 [0x00, 0x11, 0x22, 0x33, 0x44] = 0xe2301fa8 ∧
    MurmurHash3 0 [0x00, 0x11, 0x22, 0x33, 0x44, 0x55] = 0xfc2e4a15 ∧
    MurmurHash3 0 [0x00, 0x11, 0x22, 0x33, 0x44, 0x55, 0x66] = 0xb074502c ∧
    MurmurHash3 0 [0x00, 0x11, 0x22, 0x33, 0x44, 0x55, 0x66, 0x77] = 0x8034d2a0 ∧
    MurmurHash3 0 [0x00, 0x11, 0x22, 0x33, 0x44, 0x55, 0x66, 0x77, 0x88] = 0xb4698def := by
  decide

/-- C10: `toJSON()` returns `undefined` for every Filter — the JSON string
built by `JSON.stringify(this.toObject())` is discarded, not returned, so
serializing a Filter via `toJSON` yields no data. -/
theorem toJSON_returns_undefined (f : Filter) : f.toJSON = none := rfl

/-- C9: `fromBuffer` rejects every wire buffer whose 4-byte little-endian
hash-function-count field decodes to 0 — the `Filter` constructor treats
`nHashFuncs == 0` as a missing field and throws a TypeError — so no Filter
with `nHashFuncs == 0` is ever constructed through `fromBuffer`. -/
theorem fromBuffer_rejects_zero_nHashFuncs (buf vData : List Nat) (nTweak nFlags : Nat)
    (h : Filter.transformBufferReader buf = some (vData, 0, nTweak, nFlags)) :
    Filter.fromBuffer buf =
      Except.error "Data object should include number of hash functions \"nHashFuncs\"" := by
  simp [Filter.fromBuffer, h, Filter.ofObject]

/-- Witness for C9: the 10-byte buffer of zeros decodes to an empty
`vData` with `nHashFuncs = 0`, and `fromBuffer` rejects it. -/
theorem fromBuffer_rejects_zero_nHashFuncs_witness :
    Filter.transformBufferReader [0, 0, 0, 0, 0, 0, 0, 0, 0, 0] = some ([], 0, 0, 0) ∧
    Filter.fromBuffer [0, 0, 0, 0, 0, 0, 0, 0, 0, 0] =
      Except.error "Data object should include number of hash functions \"nHashFuncs\"" :=
  ⟨by decide, fromBuffer_rejects_zero_nHashFuncs [0, 0, 0, 0, 0, 0, 0, 0, 0, 0] [] 0 0 (by decide)⟩

/-- C7: after `clear()`, `contains(x)` returns false for every buffer `x`;
and `isRelevantAndUpdate` on a filter with empty `vData` returns false for
every transaction and performs no mutation of the filter. -/
theorem empty_filter_law (f g : Filter) (x : List Nat) (tx : Transaction)
    (hg : g.vData = []) :
    (f.clear).contains x = false ∧ g.isRelevantAndUpdate tx = some (false, g) := by
  constructor
  · simp [Filter.clear, Filter.contains]
  · simp [Filter.isRelevantAndUpdate, hg]

/-- Witness for C7 at a concrete filter, buffer and transaction. -/
theorem empty_filter_law_witness :
    (Filter.clear ⟨[3], 2, 0, 0⟩).contains [5] = false ∧
    Filter.isRelevantAndUpdate ⟨[], 1, 0, 0⟩ ⟨[1], [], []⟩ =
      some (false, ⟨[], 1, 0, 0⟩) :=
  empty_filter_law ⟨[3], 2, 0, 0⟩ ⟨[], 1, 0, 0⟩ [5] ⟨[1], [], []⟩ rfl

/-- C4 (code bug): `insert` on an empty filter is NOT a no-op.  The JS code
computes `index = h % (0 * 8) = NaN`, then `vData[NaN >> 3] |= 1 << (7 &
NaN)` assigns `vData[0] = undefined | 1 = 1`, so the supposedly empty
filter ends up with `vData = [1]` — contradicting the spec's "no-op,
returns quietly, on an empty filter". -/
theorem insert_on_empty_filter_mutates :
    Filter.insert ⟨[], 1, 0, 0⟩ [0] = ⟨[1], 1, 0, 0⟩ ∧
    (Filter.insert ⟨[], 1, 0, 0⟩ [0]).vData ≠ [] := by
  decide

set_option maxRecDepth 4000 in
/-- C3 (code bug): the input-phase chunk loop reads `chunks[i].buf` with
`i` the INPUT index instead of `chunks[s]`, so a matching chunk at a
position other than the input's index is never examined.  Concretely: the
filter `⟨[128], 1, 0, 0⟩` contains the buffer `[0]` (bit 7 of byte 0), the
only input (index 0) has script chunks `[no-buf-chunk, chunk [0]]`, no
transaction-hash / output / previous-txid rule matches — yet
`isRelevantAndUpdate` returns false (it inspected chunk 0 twice, never
chunk 1), where the spec requires true. -/
theorem input_chunk_scan_misses_matching_chunk :
    Filter.isRelevantAndUpdate ⟨[128], 1, 0, 0⟩ ⟨[1], [], [⟨[3], [none, some [0]]⟩]⟩ =
      some (false, ⟨[128], 1, 0, 0⟩) ∧
    Filter.contains ⟨[128], 1, 0, 0⟩ [0] = true := by
  decide

/-- C8 counterexample: on a filter whose `vData` is empty (the state
`clear()` produces), `insert(x); insert(x)` does not equal a single
`insert(x)`.  First insert: the NaN-index write turns `[]` into `[1]`.
Second insert: the now 1-byte array hashes `[0]` to bit 7, producing
`[129] ≠ [1]`. -/
theorem insert_not_idempotent_on_empty_filter :
    (Filter.insert (Filter.insert ⟨[], 1, 0, 0⟩ [0]) [0]).vData ≠
      (Filter.insert ⟨[], 1, 0, 0⟩ [0]).vData := by
  decide

set_option maxRecDepth 10000 in
/-- C1 counterexample: a filter whose `vData` holds 256 bytes does not
round-trip: the 1-byte length prefix cannot carry 256, so the encoding
fails outright (and can certainly not decode back to the filter). -/
theorem roundtrip_fails_beyond_255 :
    (Filter.toBuffer ⟨List.replicate 256 0, 1, 0, 0⟩).map Filter.fromBuffer ≠
      some (Except.ok ⟨List.replicate 256 0, 1, 0, 0⟩) := by
  have h : Filter.toBuffer ⟨List.replicate 256 0, 1, 0, 0⟩ = none := by
    simp [Filter.toBuffer, writeUInt8]
  rw [h]
  simp

/-- Fields other than `vData` are preserved across any sequence of insert
steps. -/
theorem foldl_insertStep_fields (x : List Nat) (is : List Nat) (g : Filter) :
    (is.foldl (fun a i => a.insertStep x i) g).nHashFuncs = g.nHashFuncs ∧
    (is.foldl (fun a i => a.insertStep x i) g).nTweak = g.nTweak ∧
    (is.foldl (fun a i => a.insertStep x i) g).nFlags = g.nFlags := by
  induction is generalizing g with
  | nil => exact ⟨rfl, rfl, rfl⟩
  | cons i rest ih =>
    simp only [List.foldl_cons]
    obtain ⟨h1, h2, h3⟩ := ih (g.insertStep x i)
    obtain ⟨k1, k2, k3⟩ := insertStep_fields g x i
    exact ⟨h1.trans k1, h2.trans k2, h3.trans k3⟩

/-- The byte count of a non-empty filter is preserved across any sequence
of insert steps. -/
theorem foldl_insertStep_length (x : List Nat) (is : List Nat) (g : Filter)
    (hg : g.vData.length ≠ 0) :
    (is.foldl (fun a i => a.insertStep x i) g).vData.length = g.vData.length := by
  induction is generalizing g with
  | nil => rfl
  | cons i rest ih =>
    simp only [List.foldl_cons]
    rw [ih (g.insertStep x i) (by rw [insertStep_length g x i hg]; exact hg),
      insertStep_length g x i hg]

/-- After a sequence of insert steps on a non-empty filter, bit `j` is set
whenever it was already set or one of the steps targets it. -/
theorem foldl_insertStep_sets (x : List Nat) (is : List Nat) (g : Filter)
    (hg : g.vData.length ≠ 0) (j : Nat)
    (h : bitSetB g.vData j = true ∨ ∃ i ∈ is, g.hash i x = j) :
    bitSetB ((is.foldl (fun a i => a.insertStep x i) g)).vData j = true := by
  induction is generalizing g with
  | nil =>
    rcases h with hb | ⟨i, hi, _⟩
    · exact hb
    · exact absurd hi (List.not_mem_nil i)
  | cons i rest ih =>
    simp only [List.foldl_cons]
    have hg' : (g.insertStep x i).vData.length ≠ 0 := by
      rw [insertStep_length g x i hg]; exact hg
    apply ih (g.insertStep x i) hg'
    rcases h with hb | ⟨i', hi', hj⟩
    · left
      rw [insertStep_vData g x i hg]
      exact bitSetB_set_mono _ _ _ hb
    · rcases List.mem_cons.mp hi' with rfl | hmem
      · left
        rw [insertStep_vData g x i' hg, ← hj]
        exact bitSetB_set_self _ _ (hash_div_lt g i' x hg)
      · right
        refine ⟨i', hmem, ?_⟩
        rw [hash_congr g (g.insertStep x i) i' x (insertStep_fields g x i).2.1
          (insertStep_length g x i hg)]
        exact hj

/-- A sequence of insert steps on a non-empty filter is the identity when
every targeted bit is already set (used for idempotence). -/
theorem foldl_insertStep_id (x : List Nat) (is : List Nat) (g : Filter)
    (hg : g.vData.length ≠ 0)
    (hset : ∀ i ∈ is, bitSetB g.vData (g.hash i x) = true) :
    is.foldl (fun a i => a.insertStep x i) g = g := by
  induction is with
  | nil => rfl
  | cons i rest ih =>
    have h1 : (g.insertStep x i).vData = g.vData := by
      rw [insertStep_vData g x i hg]
      exact set_or_self _ _ (hset i (List.mem_cons_self i rest))
    obtain ⟨hn, ht, hf⟩ := insertStep_fields g x i
    have hid : g.insertStep x i = g := Filter.ext h1 hn ht hf
    rw [List.foldl_cons, hid]
    exact ih fun i' hi' => hset i' (List.mem_cons_of_mem i hi')

/-- `insert` never touches `nHashFuncs`, `nTweak` or `nFlags`. -/
theorem insert_fields (f : Filter) (x : List Nat) :
    (f.insert x).nHashFuncs = f.nHashFuncs ∧
    (f.insert x).nTweak = f.nTweak ∧
    (f.insert x).nFlags = f.nFlags :=
  foldl_insertStep_fields x (List.range f.nHashFuncs) f

/-- `insert` on a non-empty filter preserves the byte count. -/
theorem insert_length (f : Filter) (x : List Nat) (h : f.vData.length ≠ 0) :
    (f.insert x).vData.length = f.vData.length :=
  foldl_insertStep_length x (List.range f.nHashFuncs) f h

/-- `insert` on a non-empty filter sets every one of the `nHashFuncs`
computed bits of the inserted buffer. -/
theorem insert_sets (f : Filter) (x : List Nat) (h : f.vData.length ≠ 0)
    (i : Nat) (hi : i < f.nHashFuncs) :
    bitSetB (f.insert x).vData (f.hash i x) = true :=
  foldl_insertStep_sets x (List.range f.nHashFuncs) f h (f.hash i x)
    (Or.inr ⟨i, List.mem_range.mpr hi, rfl⟩)

/-- `insert` on a non-empty filter never clears a bit. -/
theorem insert_mono (f : Filter) (y : List Nat) (h : f.vData.length ≠ 0)
    (j : Nat) (hb : bitSetB f.vData j = true) :
    bitSetB (f.insert y).vData j = true :=
  foldl_insertStep_sets y (List.range f.nHashFuncs) f h j (Or.inl hb)

/-- `contains` on a non-empty filter tests exactly the `bitSetB` bits of
the `nHashFuncs` hash positions. -/
theorem contains_iff_bits (f : Filter) (x : List Nat) (h : f.vData.length ≠ 0) :
    f.contains x = (List.range f.nHashFuncs).all fun i => bitSetB f.vData (f.hash i x) := by
  simp only [Filter.contains, if_neg h]
  congr 1
  funext i
  exact byteTest_eq_bitSetB f.vData (f.hash i x)

/-- The bits set by inserting `x` — stated on the inserted filter's own
`hash`, `nHashFuncs` (which `insert` preserves). -/
theorem insert_sets_all (f : Filter) (x : List Nat) (hne : f.vData.length ≠ 0) :
    ∀ i < (f.insert x).nHashFuncs,
      bitSetB (f.insert x).vData ((f.insert x).hash i x) = true := by
  intro i hi
  have hfield := insert_fields f x
  have hlen := insert_length f x hne
  rw [hash_congr f (f.insert x) i x hfield.2.1 hlen]
  exact insert_sets f x hne i (hfield.1 ▸ hi)

/-- Fields and byte count are preserved by folding whole `insert` calls
over a list of buffers (non-empty filter). -/
theorem foldl_insert_fields_length (ys : List (List Nat)) (g : Filter)
    (hg : g.vData.length ≠ 0) :
    (ys.foldl Filter.insert g).vData.length = g.vData.length ∧
    (ys.foldl Filter.insert g).nTweak = g.nTweak ∧
    (ys.foldl Filter.insert g).nHashFuncs = g.nHashFuncs := by
  induction ys generalizing g with
  | nil => exact ⟨rfl, rfl, rfl⟩
  | cons y rest ih =>
    simp only [List.foldl_cons]
    have h1 := insert_length g y hg
    obtain ⟨a1, a2, a3⟩ := ih (g.insert y) (by rw [h1]; exact hg)
    exact ⟨a1.trans h1, a2.trans (insert_fields g y).2.1, a3.trans (insert_fields g y).1⟩

/-- Set bits survive folding whole `insert` calls over a list of buffers
(non-empty filter). -/
theorem foldl_insert_mono (ys : List (List Nat)) (g : Filter)
    (hg : g.vData.length ≠ 0) (j : Nat) (hb : bitSetB g.vData j = true) :
    bitSetB (ys.foldl Filter.insert g).vData j = true := by
  induction ys generalizing g with
  | nil => exact hb
  | cons y rest ih =>
    simp only [List.foldl_cons]
    exact ih (g.insert y) (by rw [insert_length g y hg]; exact hg)
      (insert_mono g y hg j hb)

/-- C6: membership soundness — for every non-empty filter and every buffer
`x`, `contains(x)` returns true immediately after `insert(x)`, and it
remains true after any further sequence of `insert` calls with other
buffers (insert only sets bits, never clears them). -/
theorem contains_after_insert_persists (f : Filter) (x : List Nat)
    (ys : List (List Nat)) (h : 0 < f.vData.length) :
    (f.insert x).contains x = true ∧
    (ys.foldl Filter.insert (f.insert x)).contains x = true := by
  have hne : f.vData.length ≠ 0 := by omega
  have hlen1 : (f.insert x).vData.length = f.vData.length := insert_length f x hne
  have hne1 : (f.insert x).vData.length ≠ 0 := by rw [hlen1]; exact hne
  have hbits1 := insert_sets_all f x hne
  constructor
  · rw [contains_iff_bits (f.insert x) x hne1, List.all_eq_true]
    intro i hi
    exact hbits1 i (List.mem_range.mp hi)
  · obtain ⟨l1, l2, l3⟩ := foldl_insert_fields_length ys (f.insert x) hne1
    rw [contains_iff_bits _ x (by rw [l1]; exact hne1), List.all_eq_true]
    intro i hi
    have hi' : i < (f.insert x).nHashFuncs := by
      rw [← l3]; exact List.mem_range.mp hi
    rw [hash_congr (f.insert x) (ys.foldl Filter.insert (f.insert x)) i x l2 l1]
    exact foldl_insert_mono ys (f.insert x) hne1 _ (hbits1 i hi')

/-- Witness for C6: a 1-byte filter, insert `[0]`, then insert `[1]`;
`contains [0]` stays true. -/
theorem contains_after_insert_persists_witness :
    0 < (Filter.vData ⟨[0], 1, 0, 0⟩).length ∧
    ((Filter.insert ⟨[0], 1, 0, 0⟩ [0]).contains [0] = true ∧
      (([[1]] : List (List Nat)).foldl Filter.insert
        (Filter.insert ⟨[0], 1, 0, 0⟩ [0])).contains [0] = true) :=
  ⟨by decide, contains_after_insert_persists ⟨[0], 1, 0, 0⟩ [0] [[1]] (by decide)⟩

/-- C8 amended: on every filter whose bit array is non-empty, a second
`insert(x)` leaves the filter (in particular its `vData`) unchanged, so
`contains(y)` gives the same result for every `y`.  (On the empty filter
the claim fails — see the counterexample.) -/
theorem insert_idempotent_on_nonempty (f : Filter) (x y : List Nat)
    (h : 0 < f.vData.length) :
    (f.insert x).insert x = f.insert x ∧
    ((f.insert x).insert x).contains y = (f.insert x).contains y := by
  have hne : f.vData.length ≠ 0 := by omega
  have hne1 : (f.insert x).vData.length ≠ 0 := by
    rw [insert_length f x hne]; exact hne
  have h1 : (f.insert x).insert x = f.insert x :=
    foldl_insertStep_id x (List.range (f.insert x).nHashFuncs) (f.insert x) hne1
      fun i hi => insert_sets_all f x hne i (List.mem_range.mp hi)
  exact ⟨h1, by rw [h1]⟩

/-- Witness for C8 amended: the 1-byte filter again. -/
theorem insert_idempotent_on_nonempty_witness :
    0 < (Filter.vData ⟨[0], 1, 0, 0⟩).length ∧
    ((Filter.insert (Filter.insert ⟨[0], 1, 0, 0⟩ [0]) [0] =
        Filter.insert ⟨[0], 1, 0, 0⟩ [0]) ∧
      (Filter.insert (Filter.insert ⟨[0], 1, 0, 0⟩ [0]) [0]).contains [1] =
        (Filter.insert ⟨[0], 1, 0, 0⟩ [0]).contains [1]) :=
  ⟨by decide, insert_idempotent_on_nonempty ⟨[0], 1, 0, 0⟩ [0] [1] (by decide)⟩

/-- The byte-writing loop succeeds on byte-valued data and emits it
verbatim. -/
theorem writeBytes_eq (l : List Nat) (h : ∀ b ∈ l, b < 256) :
    writeBytes l = some l := by
  induction l with
  | nil => rfl
  | cons b rest ih =>
    simp [writeBytes, writeUInt8, h b (List.mem_cons_self b rest),
      ih fun b' hb' => h b' (List.mem_cons_of_mem b hb')]

/-- `writeUInt32LE` on an in-range value emits its four little-endian
bytes. -/
theorem writeUInt32LE_eq (n : Nat) (h : n < 2 ^ 32) :
    writeUInt32LE n = some (uint32Bytes n) := by
  unfold writeUInt32LE uint32Bytes
  rw [if_pos h]

/-- Reading back exactly the bytes just written returns them with the
remainder untouched. -/
theorem readBytes_append (l rest : List Nat) :
    readBytes l.length (l ++ rest) = some (l, rest) := by
  induction l with
  | nil => rfl
  | cons b tl ih => simp [readBytes, readUInt8, ih]

/-- Reading back a 32-bit little-endian encoding returns the value. -/
theorem readUInt32LE_uint32Bytes (n : Nat) (rest : List Nat) (h : n < 2 ^ 32) :
    readUInt32LE (uint32Bytes n ++ rest) = some (n, rest) := by
  simp only [uint32Bytes, List.cons_append, List.nil_append, readUInt32LE, readUInt8,
    Option.pure_def, Option.bind_eq_bind, Option.some_bind, Option.some.injEq,
    Prod.mk.injEq]
  refine ⟨?_, trivial⟩
  omega

/-- C1 amended: serialization round-trips field-wise for every Filter
whose fields fit the wire format — `vData` at most 255 bytes, each entry
a byte, `nHashFuncs` in `[1, 2^32)`, `nTweak < 2^32`, `nFlags < 256`.
(The 1-byte length prefix makes round-tripping impossible for `vData`
longer than 255 bytes — see the counterexample.) -/
theorem roundtrip_within_wire_ranges (f : Filter)
    (h1 : f.vData.length ≤ 255) (h2 : ∀ b ∈ f.vData, b < 256)
    (h3 : 0 < f.nHashFuncs) (h4 : f.nHashFuncs < 2 ^ 32)
    (h5 : f.nTweak < 2 ^ 32) (h6 : f.nFlags < 256) :
    (f.toBuffer).map Filter.fromBuffer = some (Except.ok f) := by
  have hlt : f.vData.length < 256 := by omega
  have htb : f.toBuffer =
      some (f.vData.length :: (f.vData ++ (uint32Bytes f.nHashFuncs ++
        (uint32Bytes f.nTweak ++ [f.nFlags])))) := by
    simp [Filter.toBuffer, writeBytes_eq f.vData h2, writeUInt32LE_eq _ h4,
      writeUInt32LE_eq _ h5, writeUInt8, hlt, h6]
  rw [htb]
  have hdec : Filter.transformBufferReader
      (f.vData.length :: (f.vData ++ (uint32Bytes f.nHashFuncs ++
        (uint32Bytes f.nTweak ++ [f.nFlags])))) =
      some (f.vData, f.nHashFuncs, f.nTweak, f.nFlags) := by
    simp [Filter.transformBufferReader, readUInt8, readBytes_append,
      readUInt32LE_uint32Bytes _ _ h4, readUInt32LE_uint32Bytes _ _ h5]
  simp [Filter.fromBuffer, hdec, Filter.ofObject, Nat.pos_iff_ne_zero.mp h3]

/-- Witness for C1 amended: the filter `⟨[7], 2, 5, 1⟩` round-trips. -/
theorem roundtrip_within_wire_ranges_witness :
    ((Filter.vData ⟨[7], 2, 5, 1⟩).length ≤ 255 ∧
      (∀ b ∈ Filter.vData ⟨[7], 2, 5, 1⟩, b < 256) ∧
      0 < Filter.nHashFuncs ⟨[7], 2, 5, 1⟩ ∧
      Filter.nHashFuncs ⟨[7], 2, 5, 1⟩ < 2 ^ 32 ∧
      Filter.nTweak ⟨[7], 2, 5, 1⟩ < 2 ^ 32 ∧
      Filter.nFlags ⟨[7], 2, 5, 1⟩ < 256) ∧
    (Filter.toBuffer ⟨[7], 2, 5, 1⟩).map Filter.fromBuffer =
      some (Except.ok ⟨[7], 2, 5, 1⟩) :=
  ⟨⟨by decide, by decide, by decide, by decide, by decide, by decide⟩,
    roundtrip_within_wire_ranges ⟨[7], 2, 5, 1⟩ (by decide) (by decide) (by decide)
      (by decide) (by decide) (by decide)⟩

/-- The hash-function-count clamp of `create` always lands in `[1, 50]`,
so the constructor's falsy check cannot fire on the clamped value. -/
theorem clamp_toNat_ne_zero (nhRaw : Int) :
    (if nhRaw > 50 then (50 : Int) else if nhRaw < 1 then 1 else nhRaw).toNat ≠ 0 := by
  split_ifs <;> omega

/-- C2 (code bug): `create` does NOT cap the byte length at 36000.  The
source compares `filterSize` — already a BYTE count after the `/ 8` — with
`max = MAX_BLOOM_FILTER_SIZE * 8 = 288000`, a BIT bound, so the cap sits
at 288000 bytes.  For one million elements at a ≈1% false-positive rate
(`Math.log(fp) ∈ (-5, -4)`, `LN2SQUARED ∈ (0.48, 0.5)` — intervals that
contain the true float constants) the produced filter has
`vData.length = 288000 > 36000`, violating the invariant the spec
states. -/
theorem create_vData_exceeds_36000 (logFp ln2sq ln2 : ℚ)
    (h1 : (12 : ℚ) / 25 < ln2sq) (h2 : ln2sq < 1 / 2)
    (h3 : (-5 : ℚ) < logFp) (h4 : logFp < -4) :
    (Filter.create 1000000 logFp ln2sq ln2 0 0).map (fun f => f.vData.length) =
      Except.ok 288000 := by
  have hpos : (0 : ℚ) < ln2sq := lt_trans (by norm_num) h1
  have hsize : (2304008 : ℚ) ≤ -1 / ln2sq * 1000000 * logFp := by
    have heq : -1 / ln2sq * 1000000 * logFp = 1000000 * (-logFp) / ln2sq := by
      field_simp
    rw [heq, le_div_iff hpos]
    nlinarith
  have hfloor : (288001 : ℤ) ≤ ⌊(-1 / ln2sq * 1000000 * logFp) / 8⌋ := by
    apply Int.le_floor.mpr
    push_cast
    linarith
  simp only [Filter.create]
  rw [if_neg (by norm_num : ¬(1000000 : ℚ) = 0)]
  rw [if_pos (by omega : (⌊(-1 / ln2sq * 1000000 * logFp) / 8⌋ > 36000 * 8))]
  simp only [List.length_replicate]
  have h50 : ((36000 * 8 : ℤ)).toNat = 288000 := rfl
  rw [h50]
  unfold Filter.ofObject
  rw [if_neg (clamp_toNat_ne_zero _)]
  show Except.ok (List.replicate 288000 (0 : Nat)).length = Except.ok 288000
  rw [List.length_replicate]

/-- Witness for C2: concrete rationals inside the stated intervals
(`logFp = -4.5 ≈ ln 0.011`, `ln2sq = 0.49`). -/
theorem create_vData_exceeds_36000_witness :
    ((12 : ℚ) / 25 < 49 / 100 ∧ (49 / 100 : ℚ) < 1 / 2 ∧
      (-5 : ℚ) < -9 / 2 ∧ (-9 / 2 : ℚ) < -4) ∧
    (Filter.create 1000000 (-9 / 2) (49 / 100) (7 / 10) 0 0).map
      (fun f => f.vData.length) = Except.ok 288000 :=
  ⟨⟨by norm_num, by norm_num, by norm_num, by norm_num⟩,
    create_vData_exceeds_36000 (-9 / 2) (49 / 100) (7 / 10) (by norm_num)
      (by norm_num) (by norm_num) (by norm_num)⟩

/-- C5 counterexample: `create(-1, fp, ...)` does NOT fail — it silently
returns a Filter with empty `vData` and `nHashFuncs = 1` (the negative
byte count empties the array, `0 * 8 / -1 * LN2 = -0` is falsy and gets
clamped up to `MIN_HASH_FUNCS`), so `create` produces an object for a
negative `elementCount` instead of raising an error. -/
theorem create_negative_elements_succeeds :
    Filter.create (-1) (-9 / 2) (49 / 100) (7 / 10) 3 2 =
      Except.ok ⟨[], 1, 3, 2⟩ := by
  simp only [Filter.create]
  norm_num [Filter.ofObject]
  rw [show ((-2 : ℤ)).toNat = 0 from rfl]
  norm_num [Int.toNat_one]

/-- C5 amended: for `elementCount ≤ 0`, `create` fails only at
`elementCount = 0` — where `0 * 8 / 0 = NaN` makes the constructor throw a
TypeError (not an InvalidArgument) — while for every negative
`elementCount` it succeeds, returning the empty filter with
`nHashFuncs = 1`. -/
theorem create_nonpositive_elements (elements logFp ln2sq ln2 : ℚ) (nt nf : Nat)
    (hsq : 0 < ln2sq) (hlog : logFp < 0) (hel : elements ≤ 0) :
    Filter.create elements logFp ln2sq ln2 nt nf =
      (if elements = 0 then
        Except.error "Data object should include number of hash functions \"nHashFuncs\""
      else Except.ok ⟨[], 1, nt, nf⟩) := by
  rcases eq_or_lt_of_le hel with heq | hlt
  · subst heq
    rw [if_pos rfl]
    simp only [Filter.create]
    norm_num
  · have hne : elements ≠ 0 := ne_of_lt hlt
    rw [if_neg hne]
    have hsizeneg : -1 / ln2sq * elements * logFp / 8 < 0 := by
      have ha : -1 / ln2sq < 0 := div_neg_of_neg_of_pos (by norm_num) hsq
      have hb : (0 : ℚ) < -1 / ln2sq * elements := mul_pos_of_neg_of_neg ha hlt
      nlinarith [mul_neg_of_pos_of_neg hb hlog]
    have hfloorneg : ⌊-1 / ln2sq * elements * logFp / 8⌋ < 0 := by
      by_contra hcon
      push_neg at hcon
      have h0 : ((0 : ℤ) : ℚ) ≤ -1 / ln2sq * elements * logFp / 8 :=
        le_trans (by exact_mod_cast Int.cast_le.mpr hcon) (Int.floor_le _)
      push_cast at h0
      linarith
    simp only [Filter.create]
    rw [if_neg hne]
    rw [if_neg (by omega : ¬(⌊(-1 / ln2sq * elements * logFp) / 8⌋ > 36000 * 8))]
    have htz : (⌊(-1 / ln2sq * elements * logFp) / 8⌋).toNat = 0 := by omega
    rw [htz]
    simp only [List.replicate_zero, List.length_nil, Nat.cast_zero]
    have hnh : ((0 : ℚ) * 8 / elements * ln2) = 0 := by
      field_simp
    rw [hnh]
    norm_num [Filter.ofObject]

/-- Witness for C5 amended: both sides of the split at concrete inputs —
`elements = 0` errors, `elements = -1` succeeds. -/
theorem create_nonpositive_elements_witness :
    ((0 : ℚ) < 49 / 100 ∧ (-9 / 2 : ℚ) < 0 ∧ (0 : ℚ) ≤ 0 ∧ (-1 : ℚ) ≤ 0) ∧
    Filter.create 0 (-9 / 2) (49 / 100) (7 / 10) 3 2 =
      Except.error "Data object should include number of hash functions \"nHashFuncs\"" ∧
    Filter.create (-1) (-9 / 2) (49 / 100) (7 / 10) 3 2 =
      Except.ok ⟨[], 1, 3, 2⟩ :=
  ⟨⟨by norm_num, by norm_num, le_refl 0, by norm_num⟩,
    by
      have h := create_nonpositive_elements 0 (-9 / 2) (49 / 100) (7 / 10) 3 2
        (by norm_num) (by norm_num) (le_refl 0)
      rwa [if_pos rfl] at h,
    by
      have h := create_nonpositive_elements (-1) (-9 / 2) (49 / 100) (7 / 10) 3 2
        (by norm_num) (by norm_num) (by norm_num)
      rwa [if_neg (by norm_num : ¬(-1 : ℚ) = 0)] at h⟩

end Bloom


